import Mathlib

/-!
# GODcoin wallet chain synchronizer: a shallow embedding

This file embeds the chain synchronizer of the GODcoin wallet
(`src/background/db/migrations.ts`, class `Synchronizer`) and the
`SecretKey` secretbox wrapper, and proves the specification claims
about them.

Modelling conventions:
* `ScriptHash` values (address fingerprints) are byte lists (`List Nat`);
  `Buffer.compare(a, b) === 0` becomes list equality.
* `Long` block heights are `Nat` (the constructor asserts unsignedness).
* `Big` decimal balances are `Int` (decimal addition is exact).
* Fallible TypeScript code (`throw`) becomes `Except String` or an
  `Option String` error component; JavaScript field mutation becomes
  explicit state passing on `SyncState`.
* The persistent store (`KvTable`, `TxsTable`) is modelled by the
  `kvSyncHeight`, `kvTotalBalance` and `insertedRows` fields of the
  state; emitted `sync_update` events are logged in `emitted`.
* The remote node is modelled by a `RemoteEnv` giving the responses the
  synchronizer observes: the `GetProperties` height, the stream of
  `getBlockRange` callback deliveries, and per-address balances.
-/

namespace GodcoinWallet

/-- An address fingerprint (`ScriptHash`): an opaque byte sequence. -/
abbrev Addr : Type := List Nat

/-- The transaction variants dispatched over in `Synchronizer.txHasMatch`
(`OwnerTxV0`, `MintTxV0`, `RewardTxV0`, `TransferTxV0`).  The `owner`
constructor carries the two hashes the code computes:
`tx.minter.toScript().hash()` and `tx.script.hash()`.  The
`unrecognized` constructor stands for a runtime value that matches none
of the four `instanceof` checks (a protocol/version mismatch). -/
inductive Tx : Type
  | owner (minterAddr script : Addr)
  | mint (toAddr : Addr)
  | reward (toAddr : Addr)
  | transfer (fromAddr toAddr : Addr)
  | unrecognized (tag : Nat)
deriving DecidableEq, Repr

/-- A full block: header height plus ordered transaction list
(`block.block.header.height`, `block.block.transactions`). -/
structure FullBlock : Type where
  height : Nat
  transactions : List Tx
deriving DecidableEq, Repr

/-- The argument type of `Synchronizer.applyBlock`:
`[BlockHeader, SigPair] | Block` — a full block or a header-only record
(no transaction payload). -/
inductive SyncBlock : Type
  | full (b : FullBlock)
  | headerOnly (height : Nat)
deriving DecidableEq, Repr

/-- The height an applied block reports (`block.block.header.height` or
`block[0].header.height`). -/
def SyncBlock.height : SyncBlock → Nat
  | .full b => b.height
  | .headerOnly h => h

/-- The synchronizer status values assigned in `migrations.ts`
(`SyncStatus.Connecting`, `.InProgress`, `.Complete`). -/
inductive SyncStatus : Type
  | Connecting
  | InProgress
  | Complete
deriving DecidableEq, Repr

/-- The `SyncStatus` enum as actually declared in `src/ipc-models.ts`
(lines 61–64): it has only the two members `Complete` and `InProgress`;
`Connecting` is absent from the declaration. -/
inductive SyncStatusDeclared : Type
  | Complete
  | InProgress
deriving DecidableEq, Repr

/-- Which member of the declared `ipc-models.ts` enum a status value used
by the `Synchronizer` corresponds to; `none` means the declaration has no
such member. -/
def statusToDeclared : SyncStatus → Option SyncStatusDeclared
  | .Complete => some SyncStatusDeclared.Complete
  | .InProgress => some SyncStatusDeclared.InProgress
  | .Connecting => none

/-- The initial value of the `syncStatus` field
(`private syncStatus = SyncStatus.Connecting`, migrations.ts line 76). -/
def initialSyncStatus : SyncStatus := SyncStatus.Connecting

/-- The optional `newData` payload of a `SyncUpdateRaw`
(`totalBalance` plus matched transaction rows). -/
structure SyncNewData : Type where
  totalBalance : Int
  txs : List Tx
deriving DecidableEq, Repr

/-- An emitted `sync_update` event (`SyncUpdateRaw`). -/
structure SyncUpdateRaw : Type where
  status : SyncStatus
  newData : Option SyncNewData
deriving DecidableEq, Repr

/-- The mutable state of a `Synchronizer` instance together with the
persistent-store cells it writes and a log of emitted updates. -/
structure SyncState : Type where
  watchAddrs : List Addr
  currentHeight : Nat
  pendingBlocks : List FullBlock
  syncStatus : SyncStatus
  fullSyncRetryTimer : Bool
  fullSyncInProgress : Bool
  kvSyncHeight : Nat
  kvTotalBalance : Int
  insertedRows : List Tx
  emitted : List SyncUpdateRaw
deriving Repr

/-- `Synchronizer.isWatched`: scan `watchAddrs` for a byte-equal address
(`findIndex` with `Buffer.compare === 0`, then `index > -1`). -/
def isWatched (watchAddrs : List Addr) (addr : Addr) : Bool :=
  watchAddrs.any (fun watchAddr => addr == watchAddr)

/-- `Synchronizer.txHasMatch`: per-variant matching rule.  An
unrecognized variant falls through every `instanceof` check and throws
(the `_exhaustiveCheck: never` branch). -/
def txHasMatch (watchAddrs : List Addr) : Tx → Except String Bool
  | .owner minterAddr script =>
      .ok (isWatched watchAddrs minterAddr || isWatched watchAddrs script)
  | .mint toAddr => .ok (isWatched watchAddrs toAddr)
  | .reward toAddr => .ok (isWatched watchAddrs toAddr)
  | .transfer fromAddr toAddr =>
      .ok (isWatched watchAddrs fromAddr || isWatched watchAddrs toAddr)
  | .unrecognized _ => .error "exhaustive check failed tx"

/-- Whether `txHasMatch` returns `ok true` (Bool form, used to state
which transactions yield rows; an unrecognized variant throws rather
than returning `false`, so this is only meaningful on recognized ones). -/
def txMatches (watchAddrs : List Addr) (t : Tx) : Bool :=
  match txHasMatch watchAddrs t with
  | .ok b => b
  | .error _ => false

/-- The transaction loop of `Synchronizer.applyBlock` on a full block:
for each wrapper, skip unless `txHasMatch` (propagating its throw);
lazily initialise the row list on the first match and push the row
returned by `txsTable.insert`.  Returns the updated table contents and
the local `txs` value (`undefined` = `none` when nothing matched). -/
def insertMatches (watchAddrs : List Addr) (rows : List Tx)
    (acc : Option (List Tx)) :
    List Tx → List Tx × Except String (Option (List Tx))
  | [] => (rows, .ok acc)
  | t :: rest =>
    match txHasMatch watchAddrs t with
    | .error e => (rows, .error e)
    | .ok false => insertMatches watchAddrs rows acc rest
    | .ok true =>
        insertMatches watchAddrs (rows ++ [t]) (some (acc.getD [] ++ [t])) rest

/-- `Synchronizer.applyBlock`: on a full block, run the matching loop
(throws abort before the height assignment); then unconditionally adopt
the block's height (`this.currentHeight = height`), logging — but not
acting on — a gap or regression. -/
def applyBlock (s : SyncState) (b : SyncBlock) :
    SyncState × Except String (Option (List Tx)) :=
  match b with
  | .headerOnly h => ({ s with currentHeight := h }, .ok none)
  | .full fb =>
    match insertMatches s.watchAddrs s.insertedRows none fb.transactions with
    | (rows, .error e) => ({ s with insertedRows := rows }, .error e)
    | (rows, .ok txs) =>
        ({ s with insertedRows := rows, currentHeight := fb.height }, .ok txs)

/-- The responses the synchronizer observes from the remote node during
one catch-up cycle: the `GetProperties` chain height (or a transport
failure), the `getBlockRange` callback deliveries in order (each either a
block or a transport error ending the stream), and the per-address
`GetAddressInfo` balances. -/
structure RemoteEnv : Type where
  propsResp : Except String Nat
  rangeDeliveries : List (Except String SyncBlock)
  balances : Addr → Except String Int

/-- `Synchronizer.updateSyncHeight`: persist the in-memory cursor to the
key-value store (`store.setSyncHeight(this.currentHeight)`). -/
def updateSyncHeight (s : SyncState) : SyncState :=
  { s with kvSyncHeight := s.currentHeight }

/-- The `Promise.all` fan-out of `Synchronizer.updateTotalBalance`: one
`GetAddressInfo` request per watched address; the whole aggregation fails
as soon as any individual response is a failure. -/
def collectBalances (env : RemoteEnv) : List Addr → Except String (List Int)
  | [] => .ok []
  | a :: rest =>
    match env.balances a with
    | .error e => .error e
    | .ok b =>
      match collectBalances env rest with
      | .error e => .error e
      | .ok bs => .ok (b :: bs)

/-- `Synchronizer.updateTotalBalance`: issue one balance query per watched
address, sum the responses into a single total, persist it via
`store.setTotalBalance`, and return it.  On any failure the state is
returned unchanged (the only store write is after the sum). -/
def updateTotalBalance (env : RemoteEnv) (s : SyncState) :
    SyncState × Except String Int :=
  match collectBalances env s.watchAddrs with
  | .error e => (s, .error e)
  | .ok bs =>
    let totalBal := bs.foldl (· + ·) 0
    ({ s with kvTotalBalance := totalBal }, .ok totalBal)

/-- The streaming range loop of `Synchronizer.performFullSync` (the
`getBlockRange` callback): a transport error rejects the promise; the end
of the delivery list is the `undefined` end-of-range sentinel; each block
is applied, and whenever it produced matched rows they are pushed onto the
cycle's result list and the height is persisted immediately.  (The
additional wall-clock periodic height persist is time-based and not
modelled.)  Returns the state, the accumulated rows, and the error that
rejected the promise, if any. -/
def rangeApply (s : SyncState) (txs : List Tx) :
    List (Except String SyncBlock) → SyncState × List Tx × Option String
  | [] => (s, txs, none)
  | .error e :: _ => (s, txs, some e)
  | .ok b :: rest =>
    match applyBlock s b with
    | (s1, .error e) => (s1, txs, some e)
    | (s1, .ok updatedTxs) =>
      match updatedTxs with
      | some u =>
        if 0 < u.length then rangeApply (updateSyncHeight s1) (txs ++ u) rest
        else rangeApply s1 txs rest
      | none => rangeApply s1 txs rest

/-- The pending-queue drain loop of `Synchronizer.performFullSync`
(lines 235–246): iterate the buffered blocks in arrival order; a block
whose height is ≤ the current height is skipped; otherwise it is applied
via `applyBlock` and its matched rows (if any) are appended to the
cycle's result list.  An apply error aborts the loop (propagating into
the `try`/`finally`). -/
def drainPending (s : SyncState) (txs : List Tx) :
    List FullBlock → SyncState × List Tx × Option String
  | [] => (s, txs, none)
  | b :: rest =>
    if b.height ≤ s.currentHeight then drainPending s txs rest
    else
      match applyBlock s (.full b) with
      | (s1, .error e) => (s1, txs, some e)
      | (s1, .ok updatedTxs) =>
        match updatedTxs with
        | some u =>
          if 0 < u.length then drainPending s1 (txs ++ u) rest
          else drainPending s1 txs rest
        | none => drainPending s1 txs rest

/-- The body of `Synchronizer.performFullSync` inside the `try`:
fetch the chain height; stream and apply the range `[current+1, H]` when
behind; aggregate and persist the total balance; drain the pending queue;
persist the height once more; set status `Complete` and emit the final
update carrying the balance and all rows of the cycle.  Errors carry the
state as mutated so far. -/
def performFullSyncInner (env : RemoteEnv) (s0 : SyncState) :
    SyncState × Option String :=
  match env.propsResp with
  | .error e => (s0, some e)
  | .ok chainHeight =>
    match
      (if s0.currentHeight < chainHeight
       then rangeApply s0 [] env.rangeDeliveries
       else (s0, [], none)) with
    | (s1, _, some e) => (s1, some e)
    | (s1, txs1, none) =>
      match updateTotalBalance env s1 with
      | (s2, .error e) => (s2, some e)
      | (s2, .ok totalBalance) =>
        match drainPending s2 txs1 s2.pendingBlocks with
        | (s3, _, some e) => (s3, some e)
        | (s3, txs2, none) =>
          let s4 := updateSyncHeight s3
          ({ s4 with
              syncStatus := SyncStatus.Complete,
              emitted := s4.emitted ++
                [{ status := SyncStatus.Complete,
                   newData := some { totalBalance := totalBalance, txs := txs2 } }] },
           none)

/-- `Synchronizer.performFullSync` with its `finally`: whatever the body
did — success or error at any step — the pending queue is reset to `[]`
before returning. -/
def performFullSync (env : RemoteEnv) (s0 : SyncState) :
    SyncState × Option String :=
  match performFullSyncInner env s0 with
  | (s1, r) => ({ s1 with pendingBlocks := [] }, r)

/-- The `close` event handler registered in the `Synchronizer`
constructor (lines 95–106): clear the in-progress flag, cancel the retry
timer if one is pending, set status `Connecting`, and emit a status-only
update. -/
def onClose (s : SyncState) : SyncState :=
  let s1 := { s with fullSyncInProgress := false }
  let s2 :=
    if s1.fullSyncRetryTimer then { s1 with fullSyncRetryTimer := false } else s1
  let s3 := { s2 with syncStatus := SyncStatus.Connecting }
  { s3 with
      emitted := s3.emitted ++
        [{ status := SyncStatus.Connecting, newData := none }] }

/-- The guard-relevant control state of `Synchronizer.startSync`:
the `fullSyncInProgress` flag, the retry-timer slot, and a ghost counter
of catch-up attempts currently in flight (incremented when `startSync`
passes the guard, decremented by its `finally`). -/
structure GuardState : Type where
  fullSyncInProgress : Bool
  fullSyncRetryTimer : Bool
  activeSyncs : Nat
deriving DecidableEq, Repr

/-- The guard prologue of `Synchronizer.startSync` (lines 143–149): a
call while a catch-up is in flight returns immediately; otherwise the
flag is set, any pending retry timer is cancelled, and a new catch-up
attempt begins. -/
def startSyncGuard (s : GuardState) : GuardState :=
  if s.fullSyncInProgress then s
  else
    { fullSyncInProgress := true,
      fullSyncRetryTimer := false,
      activeSyncs := s.activeSyncs + 1 }

/-- The events that drive the `startSync` guard: a transport `open`
event, a retry-timer firing (both invoke `startSync`), and the completion
of a running catch-up attempt (the `finally` of `startSync`, which clears
the in-progress flag). -/
inductive GuardEvent : Type
  | transportOpen
  | retryFire
  | syncEnd
deriving DecidableEq, Repr

/-- One event step of the guard model. -/
def guardStep (s : GuardState) : GuardEvent → GuardState
  | .transportOpen => startSyncGuard s
  | .retryFire => startSyncGuard s
  | .syncEnd =>
      { s with fullSyncInProgress := false, activeSyncs := s.activeSyncs - 1 }

/-- The guard state of a freshly constructed `Synchronizer`: no catch-up
in flight, no retry timer pending. -/
def guardInit : GuardState :=
  { fullSyncInProgress := false, fullSyncRetryTimer := false, activeSyncs := 0 }

/-- The guard state after a sequence of events from the initial state. -/
def guardRun (evs : List GuardEvent) : GuardState :=
  evs.foldl guardStep guardInit

/-! ## The `SecretKey` secretbox wrapper -/

/-- `sodium.crypto_secretbox_NONCEBYTES`. -/
def crypto_secretbox_NONCEBYTES : Nat := 24

/-- `SecretKey`: holds the secretbox key bytes, or nothing once `zero()`
has run (`private key?: Uint8Array`). -/
structure SecretKey : Type where
  key : Option (List Nat)

/-- `SecretKey.encrypt`: asserts the key has not been zeroed, draws a
fresh nonce (modelled as the explicit `nonce` argument), seals the data
with `crypto_secretbox_easy` (modelled by the primitive `easy`), and
returns `nonce ++ ciphertext` (`Buffer.concat([nonce, enc])`). -/
def SecretKey.encrypt (easy : List Nat → List Nat → List Nat → List Nat)
    (sk : SecretKey) (nonce data : List Nat) : Except String (List Nat) :=
  match sk.key with
  | none => .error "key has been zeroed"
  | some k => .ok (nonce ++ easy data nonce k)

/-- `SecretKey.decrypt`: asserts the key has not been zeroed and that the
input is longer than a nonce, splits off the nonce prefix
(`data.slice(0, NONCEBYTES)` / `data.slice(NONCEBYTES)`), and opens the
remainder with `crypto_secretbox_open_easy` (modelled by `openEasy`). -/
def SecretKey.decrypt
    (openEasy : List Nat → List Nat → List Nat → Except String (List Nat))
    (sk : SecretKey) (data : List Nat) : Except String (List Nat) :=
  match sk.key with
  | none => .error "key has been zeroed"
  | some k =>
    if data.length ≤ crypto_secretbox_NONCEBYTES then
      .error "data must be at least NONCEBYTES + 1 bytes"
    else
      openEasy (data.drop crypto_secretbox_NONCEBYTES)
        (data.take crypto_secretbox_NONCEBYTES) k

/-- `SecretKey.zero`: wipe the key material and drop the reference, so
later `encrypt`/`decrypt` calls hit the zeroed-key assertion. -/
def SecretKey.zero (sk : SecretKey) : SecretKey :=
  match sk.key with
  | some _ => { key := none }
  | none => sk

/-! ## Derived definitions and concrete fixtures -/

/-- Whether a transaction value matches none of the four `instanceof`
checks. -/
def isUnrecognizedTx : Tx → Bool
  | .unrecognized _ => true
  | _ => false

/-- The blocks of a buffered queue that the drain loop actually applies:
those whose height exceeds the running cursor (which a successful apply
sets to the applied block's height). -/
def freshBlocks (cur : Nat) : List FullBlock → List FullBlock
  | [] => []
  | b :: rest =>
    if b.height ≤ cur then freshBlocks cur rest
    else b :: freshBlocks b.height rest

/-- The guard invariant: the ghost count of in-flight catch-up attempts
is `1` exactly while the `fullSyncInProgress` flag is set. -/
def guardInv (s : GuardState) : Prop :=
  s.activeSyncs = if s.fullSyncInProgress then 1 else 0

/-- A two-address watch set. -/
def exWatch : List Addr := [[1], [2]]

/-- A concrete synchronizer state: caught up to height 5, both example
addresses watched, nothing buffered. -/
def exState : SyncState :=
  { watchAddrs := exWatch,
    currentHeight := 5,
    pendingBlocks := [],
    syncStatus := SyncStatus.Complete,
    fullSyncRetryTimer := false,
    fullSyncInProgress := false,
    kvSyncHeight := 5,
    kvTotalBalance := 0,
    insertedRows := [],
    emitted := [] }

/-- A block at height 6 holding one transfer between the two watched
addresses. -/
def exTransferBlock : FullBlock :=
  { height := 6, transactions := [Tx.transfer [1] [2]] }

/-- The state after applying `exTransferBlock` to `exState`. -/
def exAppliedState : SyncState :=
  { exState with insertedRows := [Tx.transfer [1] [2]], currentHeight := 6 }

/-- A block at height 7 holding a transaction of an unrecognized
variant. -/
def exUnrecBlock : FullBlock :=
  { height := 7, transactions := [Tx.unrecognized 0] }

/-- A remote environment resolving the two watched addresses' balances
to 3 and 4. -/
def exEnv : RemoteEnv :=
  { propsResp := .ok 5,
    rangeDeliveries := [],
    balances := fun a =>
      if a = [1] then .ok 3 else if a = [2] then .ok 4 else .error "no" }

/-! ## Supporting lemmas -/

/-- `isWatched` decides membership of the watch list (byte-wise
comparison agrees with list equality). -/
lemma isWatched_iff (w : List Addr) (a : Addr) :
    isWatched w a = true ↔ a ∈ w := by
  unfold isWatched
  rw [List.any_eq_true]
  constructor
  · rintro ⟨x, hx, hbeq⟩
    rw [beq_iff_eq] at hbeq
    rwa [hbeq]
  · intro hmem
    exact ⟨a, hmem, by simp⟩

/-- The matching loop, when it finishes without throwing, returns exactly
the matching transactions in block order (one row each) and appends the
same list to the transaction table. -/
lemma insertMatches_ok (w : List Addr) :
    ∀ (l : List Tx) (rows : List Tx) (acc : Option (List Tx))
      (rows' : List Tx) (r : Option (List Tx)),
      insertMatches w rows acc l = (rows', .ok r) →
      r.getD [] = acc.getD [] ++ l.filter (txMatches w) ∧
        rows' = rows ++ l.filter (txMatches w)
  | [], rows, acc, rows', r => by
      intro h
      have h' : (rows, (Except.ok acc : Except String (Option (List Tx)))) =
          (rows', Except.ok r) := h
      rw [Prod.mk.injEq] at h'
      obtain ⟨h1, h2⟩ := h'
      rw [Except.ok.injEq] at h2
      subst h1
      subst h2
      simp
  | t :: rest, rows, acc, rows', r => by
      intro h
      cases hm : txHasMatch w t with
      | error e =>
          simp only [insertMatches, hm] at h
          exact absurd (congrArg Prod.snd h) (by simp)
      | ok b =>
          cases b with
          | false =>
              simp only [insertMatches, hm] at h
              have ih := insertMatches_ok w rest rows acc rows' r h
              have hmB : txMatches w t = false := by
                simp [txMatches, hm]
              simpa [List.filter, hmB] using ih
          | true =>
              simp only [insertMatches, hm] at h
              have ih := insertMatches_ok w rest (rows ++ [t])
                (some (acc.getD [] ++ [t])) rows' r h
              have hmB : txMatches w t = true := by
                simp [txMatches, hm]
              constructor
              · rw [ih.1]
                simp [List.filter, hmB]
              · rw [ih.2]
                simp [List.filter, hmB]

/-- Every recognized transaction variant gets a Boolean verdict from
`txHasMatch`; only the unrecognized variant throws. -/
lemma txHasMatch_ok_of_not_unrec (w : List Addr) (t : Tx)
    (h : ∀ tag, t ≠ .unrecognized tag) :
    txHasMatch w t = .ok (txMatches w t) := by
  cases t with
  | owner m sc => simp [txHasMatch, txMatches]
  | mint a => simp [txHasMatch, txMatches]
  | reward a => simp [txHasMatch, txMatches]
  | transfer f a => simp [txHasMatch, txMatches]
  | unrecognized tag => exact absurd rfl (h tag)


/-- If any transaction in the list is unrecognized, the matching loop
throws instead of completing. -/
lemma insertMatches_error_of_unrec (w : List Addr) :
    ∀ (l : List Tx) (rows : List Tx) (acc : Option (List Tx)),
      (∃ t ∈ l, isUnrecognizedTx t = true) →
      ∃ rows' e, insertMatches w rows acc l = (rows', .error e)
  | [], _, _ => by
      rintro ⟨t, ht, -⟩
      exact absurd ht (List.not_mem_nil t)
  | t0 :: rest, rows, acc => by
      rintro ⟨t, ht, hunrec⟩
      cases hm : txHasMatch w t0 with
      | error e => exact ⟨rows, e, by simp [insertMatches, hm]⟩
      | ok b =>
          have ht0 : isUnrecognizedTx t0 = false := by
            cases t0 <;> simp [isUnrecognizedTx] at hm ⊢
            exact absurd hm (by simp [txHasMatch])
          have htr : t ∈ rest := by
            rcases List.mem_cons.mp ht with h1 | h1
            · rw [h1] at hunrec
              rw [hunrec] at ht0
              exact absurd ht0 (by simp)
            · exact h1
          cases b with
          | false =>
              have ih := insertMatches_error_of_unrec w rest rows acc
                ⟨t, htr, hunrec⟩
              simpa [insertMatches, hm] using ih
          | true =>
              have ih := insertMatches_error_of_unrec w rest (rows ++ [t0])
                (some (acc.getD [] ++ [t0])) ⟨t, htr, hunrec⟩
              simpa [insertMatches, hm] using ih

/-- Unfolding `applyBlock` on a full block when the matching loop
succeeds. -/
lemma applyBlock_full_ok (s : SyncState) (fb : FullBlock)
    (rows : List Tx) (txs : Option (List Tx))
    (hi : insertMatches s.watchAddrs s.insertedRows none fb.transactions =
      (rows, .ok txs)) :
    applyBlock s (.full fb) =
      ({ s with insertedRows := rows, currentHeight := fb.height }, .ok txs) := by
  simp only [applyBlock, hi]

/-- Unfolding `applyBlock` on a full block when the matching loop
throws. -/
lemma applyBlock_full_err (s : SyncState) (fb : FullBlock)
    (rows : List Tx) (e : String)
    (hi : insertMatches s.watchAddrs s.insertedRows none fb.transactions =
      (rows, .error e)) :
    applyBlock s (.full fb) =
      ({ s with insertedRows := rows }, .error e) := by
  simp only [applyBlock, hi]

/-- A successful apply adopts the applied full block's height. -/
lemma applyBlock_full_ok_height (s : SyncState) (fb : FullBlock)
    (s1 : SyncState) (u : Option (List Tx))
    (h : applyBlock s (.full fb) = (s1, .ok u)) :
    s1.currentHeight = fb.height := by
  cases hi : insertMatches s.watchAddrs s.insertedRows none fb.transactions with
  | mk rows res =>
    cases res with
    | error e =>
        rw [applyBlock_full_err s fb rows e hi] at h
        exact absurd (congrArg Prod.snd h) (by simp)
    | ok txs =>
        rw [applyBlock_full_ok s fb rows txs hi] at h
        have h1 := congrArg Prod.fst h
        simp only at h1
        rw [← h1]

/-- A failed apply of a full block leaves the cursor untouched (the
height assignment sits after the matching loop). -/
lemma applyBlock_full_err_height (s : SyncState) (fb : FullBlock)
    (s1 : SyncState) (e : String)
    (h : applyBlock s (.full fb) = (s1, .error e)) :
    s1.currentHeight = s.currentHeight := by
  cases hi : insertMatches s.watchAddrs s.insertedRows none fb.transactions with
  | mk rows res =>
    cases res with
    | error e1 =>
        rw [applyBlock_full_err s fb rows e1 hi] at h
        have h1 := congrArg Prod.fst h
        simp only at h1
        rw [← h1]
    | ok txs =>
        rw [applyBlock_full_ok s fb rows txs hi] at h
        exact absurd (congrArg Prod.snd h) (by simp)

/-- Drain step: a buffered block at or below the cursor is skipped
outright. -/
lemma drainPending_cons_stale (s : SyncState) (txs : List Tx)
    (b : FullBlock) (q : List FullBlock)
    (hb : b.height ≤ s.currentHeight) :
    drainPending s txs (b :: q) = drainPending s txs q := by
  simp [drainPending, hb]

/-- Drain step: a buffered block above the cursor whose apply throws
aborts the drain. -/
lemma drainPending_cons_fresh_err (s : SyncState) (txs : List Tx)
    (b : FullBlock) (q : List FullBlock) (s1 : SyncState) (e : String)
    (hb : ¬ b.height ≤ s.currentHeight)
    (ha : applyBlock s (.full b) = (s1, .error e)) :
    drainPending s txs (b :: q) = (s1, txs, some e) := by
  simp [drainPending, hb, ha]

/-- Drain step: a buffered block above the cursor is applied and its
matched rows (if any) appended. -/
lemma drainPending_cons_fresh_ok (s : SyncState) (txs : List Tx)
    (b : FullBlock) (q : List FullBlock) (s1 : SyncState)
    (u : Option (List Tx))
    (hb : ¬ b.height ≤ s.currentHeight)
    (ha : applyBlock s (.full b) = (s1, .ok u)) :
    drainPending s txs (b :: q) = drainPending s1 (txs ++ u.getD []) q := by
  cases u with
  | none => simp [drainPending, hb, ha]
  | some l =>
      by_cases hl : 0 < l.length
      · simp [drainPending, hb, ha, hl]
      · have hnil : l = [] := List.length_eq_zero.mp (Nat.le_zero.mp
          (Nat.not_lt.mp hl))
        subst hnil
        simp [drainPending, hb, ha]


/-- Draining a queue is the same as draining just its fresh blocks: the
stale entries contribute no row and no cursor movement. -/
lemma drainPending_fresh_eq :
    ∀ (q : List FullBlock) (s : SyncState) (txs : List Tx),
      drainPending s txs q = drainPending s txs (freshBlocks s.currentHeight q)
  | [], s, txs => rfl
  | b :: rest, s, txs => by
      by_cases hb : b.height ≤ s.currentHeight
      · rw [show freshBlocks s.currentHeight (b :: rest) =
            freshBlocks s.currentHeight rest from by simp [freshBlocks, hb]]
        rw [drainPending_cons_stale s txs b rest hb]
        exact drainPending_fresh_eq rest s txs
      · rw [show freshBlocks s.currentHeight (b :: rest) =
            b :: freshBlocks b.height rest from by simp [freshBlocks, hb]]
        cases ha : applyBlock s (.full b) with
        | mk s1 res =>
          cases res with
          | error e =>
              rw [drainPending_cons_fresh_err s txs b rest s1 e hb ha,
                drainPending_cons_fresh_err s txs b (freshBlocks b.height rest)
                  s1 e hb ha]
          | ok u =>
              have hh : s1.currentHeight = b.height :=
                applyBlock_full_ok_height s b s1 u ha
              rw [drainPending_cons_fresh_ok s txs b rest s1 u hb ha,
                drainPending_cons_fresh_ok s txs b (freshBlocks b.height rest)
                  s1 u hb ha]
              rw [drainPending_fresh_eq rest s1 (txs ++ u.getD []), hh]

/-- Duplicating a buffered block anywhere in the queue does not change
the drain's outcome: the second copy is necessarily stale when it is
reached. -/
lemma drainPending_dup :
    ∀ (qa : List FullBlock) (s : SyncState) (txs : List Tx) (b : FullBlock)
      (qb : List FullBlock),
      drainPending s txs (qa ++ b :: b :: qb) =
        drainPending s txs (qa ++ b :: qb)
  | [], s, txs, b, qb => by
      simp only [List.nil_append]
      by_cases hb : b.height ≤ s.currentHeight
      · rw [drainPending_cons_stale s txs b (b :: qb) hb,
          drainPending_cons_stale s txs b qb hb]
      · cases ha : applyBlock s (.full b) with
        | mk s1 res =>
          cases res with
          | error e =>
              rw [drainPending_cons_fresh_err s txs b (b :: qb) s1 e hb ha,
                drainPending_cons_fresh_err s txs b qb s1 e hb ha]
          | ok u =>
              have hh : s1.currentHeight = b.height :=
                applyBlock_full_ok_height s b s1 u ha
              have hstale : b.height ≤ s1.currentHeight := le_of_eq hh.symm
              rw [drainPending_cons_fresh_ok s txs b (b :: qb) s1 u hb ha,
                drainPending_cons_fresh_ok s txs b qb s1 u hb ha,
                drainPending_cons_stale s1 (txs ++ u.getD []) b qb hstale]
  | a :: qa', s, txs, b, qb => by
      simp only [List.cons_append]
      by_cases hastale : a.height ≤ s.currentHeight
      · rw [drainPending_cons_stale s txs a (qa' ++ b :: b :: qb) hastale,
          drainPending_cons_stale s txs a (qa' ++ b :: qb) hastale]
        exact drainPending_dup qa' s txs b qb
      · cases ha : applyBlock s (.full a) with
        | mk s1 res =>
          cases res with
          | error e =>
              rw [drainPending_cons_fresh_err s txs a (qa' ++ b :: b :: qb)
                  s1 e hastale ha,
                drainPending_cons_fresh_err s txs a (qa' ++ b :: qb)
                  s1 e hastale ha]
          | ok u =>
              rw [drainPending_cons_fresh_ok s txs a (qa' ++ b :: b :: qb)
                  s1 u hastale ha,
                drainPending_cons_fresh_ok s txs a (qa' ++ b :: qb)
                  s1 u hastale ha]
              exact drainPending_dup qa' s1 (txs ++ u.getD []) b qb

/-- The cursor never moves backwards across a drain: every applied block
has height above the running cursor, and a failed apply leaves it be. -/
lemma drainPending_monotone :
    ∀ (q : List FullBlock) (s : SyncState) (txs : List Tx),
      s.currentHeight ≤ (drainPending s txs q).1.currentHeight
  | [], _, _ => le_refl _
  | b :: rest, s, txs => by
      by_cases hb : b.height ≤ s.currentHeight
      · rw [drainPending_cons_stale s txs b rest hb]
        exact drainPending_monotone rest s txs
      · cases ha : applyBlock s (.full b) with
        | mk s1 res =>
          cases res with
          | error e =>
              have he : s1.currentHeight = s.currentHeight :=
                applyBlock_full_err_height s b s1 e ha
              rw [drainPending_cons_fresh_err s txs b rest s1 e hb ha]
              exact le_of_eq he.symm
          | ok u =>
              have hh : s1.currentHeight = b.height :=
                applyBlock_full_ok_height s b s1 u ha
              have hle : s.currentHeight ≤ s1.currentHeight := by
                rw [hh]
                exact le_of_lt (Nat.lt_of_not_le hb)
              rw [drainPending_cons_fresh_ok s txs b rest s1 u hb ha]
              exact le_trans hle
                (drainPending_monotone rest s1 (txs ++ u.getD []))


/-- Every guard event preserves the guard invariant. -/
lemma guardStep_inv (s : GuardState) (ev : GuardEvent) (h : guardInv s) :
    guardInv (guardStep s ev) := by
  unfold guardInv at h ⊢
  cases ev with
  | transportOpen =>
      unfold guardStep startSyncGuard
      by_cases hf : s.fullSyncInProgress
      · simpa [hf] using h
      · simp [hf] at h
        simp [hf, h]
  | retryFire =>
      unfold guardStep startSyncGuard
      by_cases hf : s.fullSyncInProgress
      · simpa [hf] using h
      · simp [hf] at h
        simp [hf, h]
  | syncEnd =>
      unfold guardStep
      by_cases hf : s.fullSyncInProgress
      · simp [hf] at h
        simp [h]
      · simp [hf] at h
        simp [h]

/-- The guard invariant is inherited along any event sequence. -/
lemma guardRun_inv_aux :
    ∀ (evs : List GuardEvent) (s : GuardState),
      guardInv s → guardInv (evs.foldl guardStep s)
  | [], _, h => h
  | ev :: evs, s, h => guardRun_inv_aux evs (guardStep s ev) (guardStep_inv s ev h)

/-- The guard invariant holds in every reachable guard state. -/
lemma guardRun_inv (evs : List GuardEvent) : guardInv (guardRun evs) :=
  guardRun_inv_aux evs guardInit (by simp [guardInv, guardInit])

/-- If any watched address's balance query fails, the whole `Promise.all`
fan-out fails. -/
lemma collectBalances_error_of_mem (env : RemoteEnv) :
    ∀ (addrs : List Addr) (a : Addr) (e : String),
      a ∈ addrs → env.balances a = .error e →
      ∃ e', collectBalances env addrs = .error e'
  | [], a, e => by
      intro ha _
      exact absurd ha (List.not_mem_nil a)
  | a0 :: rest, a, e => by
      intro ha hb
      cases hb0 : env.balances a0 with
      | error e0 => exact ⟨e0, by simp [collectBalances, hb0]⟩
      | ok b0 =>
          have har : a ∈ rest := by
            rcases List.mem_cons.mp ha with h1 | h1
            · subst h1
              rw [hb0] at hb
              exact absurd hb (by simp)
            · exact h1
          obtain ⟨e', he'⟩ := collectBalances_error_of_mem env rest a e har hb
          exact ⟨e', by simp [collectBalances, hb0, he']⟩

/-- When the fan-out succeeds it returns one balance per watched address,
in watch-list order. -/
lemma collectBalances_ok_spec (env : RemoteEnv) :
    ∀ (addrs : List Addr) (bs : List Int),
      collectBalances env addrs = .ok bs →
      bs.length = addrs.length ∧
      ∀ (i : Nat) (h1 : i < addrs.length) (h2 : i < bs.length),
        env.balances (addrs.get ⟨i, h1⟩) = .ok (bs.get ⟨i, h2⟩)
  | [], bs => by
      intro h
      have hb : bs = [] := by
        have h' : (Except.ok [] : Except String (List Int)) = .ok bs := h
        simpa using h'.symm
      subst hb
      exact ⟨rfl, fun i h1 _ => absurd h1 (Nat.not_lt_zero i)⟩
  | a0 :: rest, bs => by
      intro h
      cases hb0 : env.balances a0 with
      | error e0 =>
          rw [show collectBalances env (a0 :: rest) = .error e0 from by
            simp [collectBalances, hb0]] at h
          exact absurd h (by simp)
      | ok b0 =>
          cases hrest : collectBalances env rest with
          | error e1 =>
              rw [show collectBalances env (a0 :: rest) = .error e1 from by
                simp [collectBalances, hb0, hrest]] at h
              exact absurd h (by simp)
          | ok bs0 =>
              rw [show collectBalances env (a0 :: rest) = .ok (b0 :: bs0) from by
                simp [collectBalances, hb0, hrest]] at h
              have hb : bs = b0 :: bs0 := by simpa using h.symm
              subst hb
              obtain ⟨hlen, hidx⟩ := collectBalances_ok_spec env rest bs0 hrest
              refine ⟨by simp [hlen], ?_⟩
              intro i h1 h2
              cases i with
              | zero => simpa using hb0
              | succ j =>
                  have h1' : j < rest.length := Nat.lt_of_succ_lt_succ h1
                  have h2' : j < bs0.length := Nat.lt_of_succ_lt_succ h2
                  simpa using hidx j h1' h2'







/-- A successful apply adopts the applied block's height, for either
block shape. -/
lemma applyBlock_ok_height (s : SyncState) (b : SyncBlock) (s1 : SyncState)
    (u : Option (List Tx)) (h : applyBlock s b = (s1, .ok u)) :
    s1.currentHeight = b.height := by
  cases b with
  | headerOnly hh =>
      have h1 := congrArg Prod.fst h
      simp only [applyBlock] at h1
      rw [← h1]
      rfl
  | full fb => exact applyBlock_full_ok_height s fb s1 u h

/-! ## Claim theorems -/

/-- C1: during the pending-queue drain, every buffered block at or below
the current local height is skipped — the drain result (rows, cursor and
final state) is exactly that of the queue without it, and equals the
drain of just the fresh blocks; duplicated blocks contribute nothing
twice; every buffered block above the cursor is applied via the Block
Applier with its matched rows appended to the cycle's result list, in
arrival order. -/
theorem spec_pending_drain_skip_stale_apply_fresh (s : SyncState)
    (txs : List Tx) (q : List FullBlock) :
    drainPending s txs q = drainPending s txs (freshBlocks s.currentHeight q) ∧
    (∀ b, b.height ≤ s.currentHeight →
      drainPending s txs (b :: q) = drainPending s txs q) ∧
    (∀ qa b qb, drainPending s txs (qa ++ b :: b :: qb) =
      drainPending s txs (qa ++ b :: qb)) ∧
    (∀ b s1 u, ¬ b.height ≤ s.currentHeight →
      applyBlock s (.full b) = (s1, .ok u) →
      drainPending s txs (b :: q) = drainPending s1 (txs ++ u.getD []) q) :=
  ⟨drainPending_fresh_eq q s txs,
   fun b hb => drainPending_cons_stale s txs b q hb,
   fun qa b qb => drainPending_dup qa s txs b qb,
   fun b s1 u hb ha => drainPending_cons_fresh_ok s txs b q s1 u hb ha⟩

/-- C1 witness: at cursor height 5, a buffered block at height 3 is
skipped and contributes nothing; the height-6 transfer block is
applied. -/
theorem spec_pending_drain_skip_stale_apply_fresh_witness :
    drainPending exState [] ({ height := 3, transactions := [] } :: []) =
      drainPending exState [] [] ∧
    drainPending exState [] (exTransferBlock :: []) =
      drainPending exAppliedState
        ([] ++ (some [Tx.transfer [1] [2]] : Option (List Tx)).getD []) [] :=
  ⟨(spec_pending_drain_skip_stale_apply_fresh exState [] []).2.1
      { height := 3, transactions := [] } (by decide),
   (spec_pending_drain_skip_stale_apply_fresh exState [] []).2.2.2
      exTransferBlock exAppliedState (some [Tx.transfer [1] [2]])
      (by decide) rfl⟩

/-- C2: the per-variant matching rules — an ownership-change matches iff
the minter's derived address or the authorization script's hash is
watched, a mint or reward iff its destination is watched, a transfer iff
its source or destination is watched — and on a successfully applied
full block the produced rows are exactly the matching transactions in
block order, one inserted row each (so a transfer between two watched
addresses yields one row, not two). -/
theorem spec_tx_match_rules_exactly_one_row (w : List Addr) :
    (∀ m sc, txHasMatch w (.owner m sc) = .ok true ↔ (m ∈ w ∨ sc ∈ w)) ∧
    (∀ a, txHasMatch w (.mint a) = .ok true ↔ a ∈ w) ∧
    (∀ a, txHasMatch w (.reward a) = .ok true ↔ a ∈ w) ∧
    (∀ f t, txHasMatch w (.transfer f t) = .ok true ↔ (f ∈ w ∨ t ∈ w)) ∧
    (∀ (s : SyncState) (fb : FullBlock) (s1 : SyncState) (r : Option (List Tx)),
      s.watchAddrs = w →
      applyBlock s (.full fb) = (s1, .ok r) →
      r.getD [] = fb.transactions.filter (txMatches w) ∧
      s1.insertedRows = s.insertedRows ++ fb.transactions.filter (txMatches w)) := by
  refine ⟨?_, ?_, ?_, ?_, ?_⟩
  · intro m sc
    simp [txHasMatch, isWatched_iff]
  · intro a
    simp [txHasMatch, isWatched_iff]
  · intro a
    simp [txHasMatch, isWatched_iff]
  · intro f t
    simp [txHasMatch, isWatched_iff]
  · intro s fb s1 r hw h
    subst hw
    cases hi : insertMatches s.watchAddrs s.insertedRows none fb.transactions with
    | mk rows res =>
      cases res with
      | error e =>
          rw [applyBlock_full_err s fb rows e hi] at h
          exact absurd (congrArg Prod.snd h) (by simp)
      | ok txs =>
          rw [applyBlock_full_ok s fb rows txs hi] at h
          have h1 := congrArg Prod.fst h
          have h2 := congrArg Prod.snd h
          simp only at h1 h2
          have h2' : txs = r := by simpa using h2
          obtain ⟨hr, hrows⟩ := insertMatches_ok s.watchAddrs fb.transactions
            s.insertedRows none rows txs hi
          subst h2'
          constructor
          · simpa using hr
          · rw [← h1]
            simpa using hrows

/-- C2 witness: a transfer between the two watched addresses `[1]` and
`[2]` produces exactly one row. -/
theorem spec_tx_match_rules_exactly_one_row_witness :
    (some [Tx.transfer [1] [2]] : Option (List Tx)).getD [] =
      exTransferBlock.transactions.filter (txMatches exWatch) ∧
    exAppliedState.insertedRows =
      exState.insertedRows ++
        exTransferBlock.transactions.filter (txMatches exWatch) :=
  (spec_tx_match_rules_exactly_one_row exWatch).2.2.2.2 exState exTransferBlock
    exAppliedState (some [Tx.transfer [1] [2]]) rfl rfl

/-- C3: at most one bulk catch-up cycle is in flight at any time — along
any sequence of transport-open events, retry firings and catch-up
completions the ghost count of active catch-up attempts never exceeds
one, and while the in-progress flag is set a further open or retry is a
no-op on the guard state. -/
theorem spec_no_overlapping_catchup :
    (∀ evs : List GuardEvent, (guardRun evs).activeSyncs ≤ 1) ∧
    (∀ s : GuardState, s.fullSyncInProgress = true →
      guardStep s .transportOpen = s ∧ guardStep s .retryFire = s) := by
  constructor
  · intro evs
    have h := guardRun_inv evs
    unfold guardInv at h
    by_cases hf : (guardRun evs).fullSyncInProgress
    · simp [hf] at h
      omega
    · simp [hf] at h
      omega
  · intro s hs
    constructor <;> simp [guardStep, startSyncGuard, hs]

/-- C3 witness: with a catch-up in flight, a transport open is a no-op,
and a quick open–open–retry burst leaves at most one active attempt. -/
theorem spec_no_overlapping_catchup_witness :
    guardStep
      { fullSyncInProgress := true, fullSyncRetryTimer := false,
        activeSyncs := 1 } .transportOpen =
      { fullSyncInProgress := true, fullSyncRetryTimer := false,
        activeSyncs := 1 } ∧
    (guardRun [.transportOpen, .transportOpen, .retryFire]).activeSyncs ≤ 1 :=
  ⟨(spec_no_overlapping_catchup.2
      { fullSyncInProgress := true, fullSyncRetryTimer := false,
        activeSyncs := 1 } rfl).1,
   spec_no_overlapping_catchup.1 [.transportOpen, .transportOpen, .retryFire]⟩

/-- C4: the pending block queue is empty in the state returned by the
catch-up procedure on every exit path — success or error at any step —
so no buffered block survives into a later cycle. -/
theorem spec_pending_queue_cleared_on_every_exit (env env2 : RemoteEnv)
    (s : SyncState) :
    (performFullSync env s).1.pendingBlocks = [] ∧
    (performFullSync env2 (performFullSync env s).1).1.pendingBlocks = [] := by
  constructor
  · unfold performFullSync
    cases performFullSyncInner env s with
    | mk s1 r => rfl
  · unfold performFullSync
    cases performFullSyncInner env2 (performFullSync env s).1 with
    | mk s1 r => rfl

/-- C5 counterexample: the claim "the local height after the apply is ≥
the local height before it" fails — applying a header-only block of
height 3 to a state at height 5 regresses the cursor to 3 (the code
unconditionally adopts the remote height). -/
theorem spec_height_monotone_counterexample :
    ¬ exState.currentHeight ≤
      (applyBlock exState (SyncBlock.headerOnly 3)).1.currentHeight := by
  decide


/-- C5 (amended): a successful apply sets the cursor to the applied
block's height — so the cursor is non-decreasing whenever the applied
block's height is at least the current height, which holds for every
block applied during the pending-queue drain (stale blocks are skipped);
an apply that throws leaves the cursor unchanged. -/
theorem spec_height_adoption_amended :
    (∀ (s : SyncState) (b : SyncBlock) (s1 : SyncState) (u : Option (List Tx)),
      applyBlock s b = (s1, .ok u) → s1.currentHeight = b.height) ∧
    (∀ (s : SyncState) (b : SyncBlock) (s1 : SyncState) (u : Option (List Tx)),
      applyBlock s b = (s1, .ok u) → s.currentHeight ≤ b.height →
      s.currentHeight ≤ s1.currentHeight) ∧
    (∀ (s : SyncState) (fb : FullBlock) (s1 : SyncState) (e : String),
      applyBlock s (.full fb) = (s1, .error e) →
      s1.currentHeight = s.currentHeight) ∧
    (∀ (q : List FullBlock) (s : SyncState) (txs : List Tx),
      s.currentHeight ≤ (drainPending s txs q).1.currentHeight) :=
  ⟨applyBlock_ok_height,
   fun s b s1 u h hle => le_of_le_of_eq hle (applyBlock_ok_height s b s1 u h).symm,
   fun s fb s1 e h => applyBlock_full_err_height s fb s1 e h,
   fun q s txs => drainPending_monotone q s txs⟩

/-- C5 witness: applying the height-6 block from height 5 adopts height 6
and does not decrease the cursor. -/
theorem spec_height_adoption_amended_witness :
    ({ exState with currentHeight := 6 } : SyncState).currentHeight =
      (SyncBlock.headerOnly 6).height ∧
    exState.currentHeight ≤
      ({ exState with currentHeight := 6 } : SyncState).currentHeight :=
  ⟨spec_height_adoption_amended.1 exState (SyncBlock.headerOnly 6)
      { exState with currentHeight := 6 } none rfl,
   spec_height_adoption_amended.2.1 exState (SyncBlock.headerOnly 6)
      { exState with currentHeight := 6 } none rfl (by decide)⟩

/-- C6: the synchronizer starts in — and the close handler returns to —
the status `Connecting`, yet the `SyncStatus` enum declared in
`ipc-models.ts` has no `Connecting` member: the declaration contradicts
the synchronizer's own three-valued status usage. -/
theorem spec_status_enum_missing_connecting :
    initialSyncStatus = SyncStatus.Connecting ∧
    statusToDeclared initialSyncStatus = none ∧
    (∀ s : SyncState, (onClose s).syncStatus = SyncStatus.Connecting ∧
      statusToDeclared (onClose s).syncStatus = none) := by
  refine ⟨rfl, rfl, fun s => ?_⟩
  have hs : (onClose s).syncStatus = SyncStatus.Connecting := by
    unfold onClose
    by_cases ht : s.fullSyncRetryTimer <;> simp [ht]
  exact ⟨hs, by rw [hs]; rfl⟩

/-- C7: balance aggregation issues one query per watched address; if any
individual query fails the aggregation fails with the state unchanged
(no partial persistence); on success the persisted total is the sum of
the per-address balances the remote returned, one per watched address in
order. -/
theorem spec_balance_aggregation (env : RemoteEnv) (s : SyncState) :
    ((∃ a e, a ∈ s.watchAddrs ∧ env.balances a = .error e) →
      ∃ e', updateTotalBalance env s = (s, .error e')) ∧
    (∀ bs, collectBalances env s.watchAddrs = .ok bs →
      updateTotalBalance env s =
        ({ s with kvTotalBalance := bs.foldl (· + ·) 0 },
         .ok (bs.foldl (· + ·) 0)) ∧
      bs.length = s.watchAddrs.length ∧
      (∀ (i : Nat) (h1 : i < s.watchAddrs.length) (h2 : i < bs.length),
        env.balances (s.watchAddrs.get ⟨i, h1⟩) = .ok (bs.get ⟨i, h2⟩))) := by
  constructor
  · rintro ⟨a, e, ha, hb⟩
    obtain ⟨e', he'⟩ := collectBalances_error_of_mem env s.watchAddrs a e ha hb
    exact ⟨e', by simp [updateTotalBalance, he']⟩
  · intro bs hbs
    obtain ⟨hlen, hidx⟩ := collectBalances_ok_spec env s.watchAddrs bs hbs
    exact ⟨by simp [updateTotalBalance, hbs], hlen, hidx⟩

/-- C7 witness: with balances 3 and 4 for the two watched addresses, the
persisted total is their sum. -/
theorem spec_balance_aggregation_witness :
    updateTotalBalance exEnv exState =
      ({ exState with
          kvTotalBalance := ([3, 4] : List Int).foldl (· + ·) 0 },
       .ok (([3, 4] : List Int).foldl (· + ·) 0)) :=
  ((spec_balance_aggregation exEnv exState).2 [3, 4] rfl).1

/-- C8: a transaction matching none of the four recognized variants makes
the Block Applier throw rather than silently skip: the apply of the block
returns an error and the cursor is not advanced. -/
theorem spec_unrecognized_variant_errors (s : SyncState) (fb : FullBlock)
    (h : ∃ t ∈ fb.transactions, isUnrecognizedTx t = true) :
    ∃ s1 e, applyBlock s (.full fb) = (s1, .error e) ∧
      s1.currentHeight = s.currentHeight := by
  obtain ⟨rows', e, he⟩ := insertMatches_error_of_unrec s.watchAddrs
    fb.transactions s.insertedRows none h
  exact ⟨{ s with insertedRows := rows' }, e,
    applyBlock_full_err s fb rows' e he, rfl⟩

/-- C8 witness: a block carrying an unrecognized variant aborts with an
error at the concrete state. -/
theorem spec_unrecognized_variant_errors_witness :
    ∃ s1 e, applyBlock exState (.full exUnrecBlock) = (s1, .error e) ∧
      s1.currentHeight = exState.currentHeight :=
  spec_unrecognized_variant_errors exState exUnrecBlock
    ⟨Tx.unrecognized 0, by simp [exUnrecBlock], rfl⟩

/-- C9: the transport-lost handler clears the in-progress flag, cancels
any pending retry timer, sets status `Connecting` and emits exactly one
status-only update, leaving every other field — the height cursor, the
pending queue, the watch set, the persistent store, the inserted rows —
unchanged. -/
theorem spec_on_close_frame (s : SyncState) :
    (onClose s).fullSyncInProgress = false ∧
    (onClose s).fullSyncRetryTimer = false ∧
    (onClose s).syncStatus = SyncStatus.Connecting ∧
    (onClose s).emitted = s.emitted ++
      [{ status := SyncStatus.Connecting, newData := none }] ∧
    (onClose s).currentHeight = s.currentHeight ∧
    (onClose s).pendingBlocks = s.pendingBlocks ∧
    (onClose s).watchAddrs = s.watchAddrs ∧
    (onClose s).kvSyncHeight = s.kvSyncHeight ∧
    (onClose s).kvTotalBalance = s.kvTotalBalance ∧
    (onClose s).insertedRows = s.insertedRows := by
  unfold onClose
  by_cases ht : s.fullSyncRetryTimer <;> simp [ht]

/-- C10: on a live key, decrypting the result of encrypting any data
returns the data (given that the secretbox primitive opens what it
seals and produces nonempty ciphertexts); on a zeroed key both encrypt
and decrypt fail instead of touching stale key material. -/
theorem spec_secretkey_roundtrip_zeroed
    (easy : List Nat → List Nat → List Nat → List Nat)
    (openEasy : List Nat → List Nat → List Nat → Except String (List Nat))
    (k nonce data : List Nat)
    (hn : nonce.length = crypto_secretbox_NONCEBYTES)
    (hinv : ∀ d n kk, openEasy (easy d n kk) n kk = .ok d)
    (hlen : ∀ d n kk, 0 < (easy d n kk).length) :
    (∃ ct, SecretKey.encrypt easy { key := some k } nonce data = .ok ct ∧
      SecretKey.decrypt openEasy { key := some k } ct = .ok data) ∧
    (∀ d, SecretKey.encrypt easy (SecretKey.zero { key := some k }) nonce d =
      .error "key has been zeroed") ∧
    (∀ d, SecretKey.decrypt openEasy (SecretKey.zero { key := some k }) d =
      .error "key has been zeroed") := by
  refine ⟨⟨nonce ++ easy data nonce k, rfl, ?_⟩, fun d => rfl, fun d => rfl⟩
  unfold SecretKey.decrypt
  simp only
  have hgt : ¬ (nonce ++ easy data nonce k).length ≤ crypto_secretbox_NONCEBYTES := by
    rw [List.length_append, hn]
    have := hlen data nonce k
    omega
  rw [if_neg hgt, ← hn, List.take_left, List.drop_left]
  exact hinv data nonce k

/-- C10 witness: a concrete invertible secretbox primitive (append a tag
byte; open drops it) on a concrete key, nonce and message. -/
theorem spec_secretkey_roundtrip_zeroed_witness :
    ∃ ct,
      SecretKey.encrypt (fun d _ _ => d ++ [0])
        { key := some (List.replicate 32 0) } (List.replicate 24 0) [5] =
        .ok ct ∧
      SecretKey.decrypt (fun c _ _ => .ok c.dropLast)
        { key := some (List.replicate 32 0) } ct = .ok [5] :=
  (spec_secretkey_roundtrip_zeroed (fun d _ _ => d ++ [0])
    (fun c _ _ => .ok c.dropLast) (List.replicate 32 0) (List.replicate 24 0)
    [5] (by simp [crypto_secretbox_NONCEBYTES])
    (fun d n kk => by simp)
    (fun d n kk => by simp)).1

end GodcoinWallet
